import Mathlib

/-!
Shallow embedding of the LakeSoul read/write execution core:
`lakesoul-datafusion/src/datasource/file_format/metadata_format.rs` and
`lakesoul-io/src/projection/mod.rs`, together with theorems checking the
natural-language specification against it.

Modelling conventions:
* Rust `HashMap` insertion/iteration is modelled by association lists in
  first-insertion order; every theorem that could depend on iteration order is
  stated for arbitrary entry lists.
* Fallible external helpers that live outside the excerpted files
  (`partition_desc_from_file_scan_config`, `flatten_file_scan_config`,
  `compute_project_column_indices`) are treated as producers of the input data:
  a flattened scan config arrives with its partition descriptor and schema
  already attached, and the target/merged schemas are parameters.
* A Rust panic (`unwrap` on `None`) is modelled as `Option.none`; a returned
  `Err` is `Except.error`.
-/

set_option autoImplicit false

namespace LakeSoul

/-- An Arrow schema field: name, data type (kept symbolic) and nullability. -/
structure ArrowField where
  name : String
  dataType : String
  nullable : Bool
deriving DecidableEq, Repr

/-- One flattened file-scan config as produced by `flatten_file_scan_config`,
together with the data `create_physical_plan` derives from it:
`partition_desc_from_file_scan_config` yields the partition descriptor and the
columnar partition values, and `ParquetExecBuilder::build` yields a per-file
plan whose schema is `fields`. -/
structure FlatConfig where
  partitionDesc : String
  partitionValues : List (String × String)
  fields : List ArrowField
deriving DecidableEq, Repr

/-- The set (as a Boolean predicate) `column_nullable` accumulated in
`create_physical_plan`: a column name is in it when SOME field of SOME
flattened config (across the whole scan, all partition groups) is nullable
with that name (metadata_format.rs lines 239, 258-262). -/
def columnNullable (confs : List FlatConfig) (name : String) : Bool :=
  confs.any fun c => c.fields.any fun f => f.nullable && f.name == name

/-- The shadowing rebind of `merged_schema` (metadata_format.rs lines 274-286):
each field of the projected merged schema keeps its name and data type and is
marked nullable when it was already nullable or its name is in
`column_nullable`. -/
def widenMergedSchema (mergedFields : List ArrowField) (confs : List FlatConfig) :
    List ArrowField :=
  mergedFields.map fun f =>
    ⟨f.name, f.dataType, f.nullable || columnNullable confs f.name⟩

/-- Written from the spec's words, for comparison with the code: "widen each
field's nullability to the union observed across the group's fragments", i.e.
the widening for one PartitionGroup looks only at that group's own fragments. -/
def specGroupWidenedSchema (mergedFields : List ArrowField)
    (groupConfs : List FlatConfig) : List ArrowField :=
  mergedFields.map fun f =>
    ⟨f.name, f.dataType, f.nullable || columnNullable groupConfs f.name⟩

/-- One step of the `inputs_map` grouping (the body of the loop at lines
241-272): a config whose descriptor is already a key is appended to that
group's input list, otherwise a new entry is inserted with the config's
columnar partition values. -/
def insertConfig (m : List (String × (List (String × String) × List FlatConfig)))
    (c : FlatConfig) : List (String × (List (String × String) × List FlatConfig)) :=
  if m.any (fun e => e.1 == c.partitionDesc) then
    m.map fun e =>
      if e.1 == c.partitionDesc then (e.1, (e.2.1, e.2.2 ++ [c])) else e
  else
    m ++ [(c.partitionDesc, (c.partitionValues, [c]))]

/-- The `inputs_map` of `create_physical_plan` (lines 235-272): configs grouped
by partition descriptor. Modelled in first-insertion order. -/
def groupConfigs (confs : List FlatConfig) :
    List (String × (List (String × String) × List FlatConfig)) :=
  confs.foldl insertConfig []

/-- One `MergeParquetExec` node (lines 290-296): built from the (shared)
merged schema, the group's input plans and the group's partition values. -/
structure MergeNode where
  schema : List ArrowField
  inputs : List FlatConfig
  partitionValues : List (String × String)
deriving DecidableEq, Repr

/-- The shape of the physical plan `create_physical_plan` returns: the code
always builds (optional trailing projection) over (optional CDC filter) over
(union of the per-group merge nodes, or the single merge node). -/
structure ScanPlan where
  mergeNodes : List MergeNode
  isUnion : Bool
  cdcFilter : Option (String × String)
  trailingProjection : Option (List String)
deriving DecidableEq, Repr

/-- Model of `LakeSoulMetaDataParquetFormat::create_physical_plan` (lines 185-331),
given the projected target schema, the projected merged schema (outputs of
`project_schema` over `compute_project_column_indices`), the configured CDC
column name and the flattened configs. Returns `none` exactly where the code
panics on `partitioned_exec.first().unwrap()` with an empty vector
(line 301). -/
def create_physical_plan (targetFields mergedFields : List ArrowField)
    (cdcColumn : String) (confs : List FlatConfig) : Option ScanPlan :=
  let widened := widenMergedSchema mergedFields confs
  let groups := groupConfigs confs
  let nodes : List MergeNode := groups.map fun g => ⟨widened, g.2.2, g.2.1⟩
  if nodes.isEmpty then none
  else some
    { mergeNodes := nodes
      isUnion := decide (nodes.length > 1)
      cdcFilter := if cdcColumn ≠ "" then some (cdcColumn, "delete") else none
      trailingProjection :=
        if targetFields.length < widened.length then
          some (targetFields.map (·.name))
        else none }

/-- A row, as an association list from column name to (stringified) value. -/
abbrev Row := List (String × String)

/-- Value of a column in a row. -/
def lookupCol (r : Row) (name : String) : Option String :=
  (r.find? (fun kv => kv.1 == name)).map (·.2)

/-- Rows flowing out of the union stage (line 298-302): the concatenation of
the per-group merged streams; `groupRows` is the oracle for what the opaque
`MergeParquetExec` primitive produces from a group's inputs. -/
def unionStageRows (groupRows : List FlatConfig → List Row) (p : ScanPlan) :
    List Row :=
  (p.mergeNodes.map fun n => groupRows n.inputs).flatten

/-- Rows flowing out of the CDC-filter stage (lines 304-314): `FilterExec`
with predicate `ident(cdc_column).not_eq(lit("delete"))` keeps the rows whose
CDC column value differs from the marker; with no CDC column the union-stage
rows pass through unchanged. -/
def cdcStageRows (groupRows : List FlatConfig → List Row) (p : ScanPlan) :
    List Row :=
  match p.cdcFilter with
  | some (col, marker) =>
      (unionStageRows groupRows p).filter fun r =>
        !((lookupCol r col).any (fun v => v == marker))
  | none => unionStageRows groupRows p

/-- Rows out of the whole plan (lines 316-330): the trailing `ProjectionExec`
restricts each row to the target columns when present. -/
def scanOutputRows (groupRows : List FlatConfig → List Row) (p : ScanPlan) :
    List Row :=
  match p.trailingProjection with
  | some cols => (cdcStageRows groupRows p).map fun r =>
      r.filter fun kv => cols.contains kv.1
  | none => cdcStageRows groupRows p

lemma insertConfig_ne_nil
    (m : List (String × (List (String × String) × List FlatConfig)))
    (c : FlatConfig) : insertConfig m c ≠ [] := by
  unfold insertConfig
  split
  · rename_i h
    cases m with
    | nil => simp at h
    | cons x xs => simp
  · simp

lemma foldl_insertConfig_ne_nil (cs : List FlatConfig)
    (m : List (String × (List (String × String) × List FlatConfig)))
    (hm : m ≠ []) : cs.foldl insertConfig m ≠ [] := by
  induction cs generalizing m with
  | nil => simpa using hm
  | cons c cs ih => exact ih (insertConfig m c) (insertConfig_ne_nil m c)

lemma groupConfigs_ne_nil (confs : List FlatConfig) (h : confs ≠ []) :
    groupConfigs confs ≠ [] := by
  cases confs with
  | nil => exact absurd rfl h
  | cons c cs =>
      exact foldl_insertConfig_ne_nil cs (insertConfig [] c)
        (insertConfig_ne_nil [] c)

lemma create_physical_plan_some
    (targetFields mergedFields : List ArrowField) (cdc : String)
    (confs : List FlatConfig) (p : ScanPlan)
    (hp : create_physical_plan targetFields mergedFields cdc confs = some p) :
    p.mergeNodes = ((groupConfigs confs).map fun g =>
        (⟨widenMergedSchema mergedFields confs, g.2.2, g.2.1⟩ : MergeNode)) ∧
    p.isUnion = decide (p.mergeNodes.length > 1) ∧
    p.cdcFilter = (if cdc ≠ "" then some (cdc, "delete") else none) ∧
    p.trailingProjection = (if targetFields.length <
        (widenMergedSchema mergedFields confs).length then
        some (targetFields.map (·.name)) else none) := by
  simp only [create_physical_plan] at hp
  split at hp
  · cases hp
  · obtain rfl := Option.some.inj hp
    exact ⟨rfl, rfl, rfl, rfl⟩

/-- C8: `create_physical_plan` succeeds exactly when there is at least one
flattened file-scan config; the combining step yields a union iff there is
more than one partition group, and with zero fragments the code panics on
`partitioned_exec.first().unwrap()` (modelled as `none`) instead of returning
an error. -/
theorem create_physical_plan_requires_fragments
    (targetFields mergedFields : List ArrowField) (cdc : String)
    (confs : List FlatConfig) :
    (confs ≠ [] →
      ∃ p, create_physical_plan targetFields mergedFields cdc confs = some p ∧
        p.mergeNodes.length = (groupConfigs confs).length ∧
        p.isUnion = decide ((groupConfigs confs).length > 1)) ∧
    (confs = [] →
      create_physical_plan targetFields mergedFields cdc confs = none) := by
  constructor
  · intro h
    obtain ⟨g, gs, hg⟩ := List.exists_cons_of_ne_nil (groupConfigs_ne_nil confs h)
    have hsome : ∃ p,
        create_physical_plan targetFields mergedFields cdc confs = some p := by
      simp [create_physical_plan, hg]
    obtain ⟨p, hp⟩ := hsome
    obtain ⟨h1, h2, _, _⟩ :=
      create_physical_plan_some targetFields mergedFields cdc confs p hp
    refine ⟨p, hp, ?_, ?_⟩
    · rw [h1, List.length_map]
    · rw [h2, h1, List.length_map]
  · intro h
    subst h
    rfl

/-- C8 witness: at one concrete config the plan is built (no union for a
single group), and with no configs the combining step is the modelled panic. -/
theorem create_physical_plan_requires_fragments_witness :
    (∃ p, create_physical_plan [⟨"x", "Int32", false⟩] [⟨"x", "Int32", false⟩]
        "" [⟨"d=A", [("d", "A")], [⟨"x", "Int32", false⟩]⟩] = some p ∧
      p.mergeNodes.length =
        (groupConfigs [⟨"d=A", [("d", "A")], [⟨"x", "Int32", false⟩]⟩]).length ∧
      p.isUnion = decide
        ((groupConfigs [⟨"d=A", [("d", "A")], [⟨"x", "Int32", false⟩]⟩]).length
          > 1)) ∧
    create_physical_plan [⟨"x", "Int32", false⟩] [⟨"x", "Int32", false⟩] ""
      [] = none :=
  ⟨(create_physical_plan_requires_fragments _ _ _ _).1 (by decide),
   (create_physical_plan_requires_fragments
      [⟨"x", "Int32", false⟩] [⟨"x", "Int32", false⟩] "" []).2 rfl⟩

/-- Boolean check of claim C1 as stated: every merge node's schema equals the
per-group widening (base nullability unioned with the nullability observed in
that node's own fragments only). -/
def perGroupWideningHolds (mergedFields : List ArrowField) (p : ScanPlan) :
    Bool :=
  p.mergeNodes.all fun node =>
    node.schema == specGroupWidenedSchema mergedFields node.inputs

/-- Concrete inputs refuting C1: two partition groups; field `x` is
non-nullable in the base schema and in group `d=A`'s only fragment, but
nullable in group `d=B`'s fragment. -/
def c1Merged : List ArrowField := [⟨"x", "Int32", false⟩]

def c1ConfA : FlatConfig := ⟨"d=A", [("d", "A")], [⟨"x", "Int32", false⟩]⟩

def c1ConfB : FlatConfig := ⟨"d=B", [("d", "B")], [⟨"x", "Int32", true⟩]⟩

/-- C1 counterexample: the plan built over the two groups gives EVERY group the
globally widened schema, so group `d=A`'s merge node marks `x` nullable even
though `x` is non-nullable in the base schema and in every fragment of that
group; the per-group widening of the claim would leave it non-nullable. -/
theorem c1_per_group_widening_counterexample :
    (create_physical_plan c1Merged c1Merged "" [c1ConfA, c1ConfB]).map
        (perGroupWideningHolds c1Merged) = some false ∧
    (create_physical_plan c1Merged c1Merged "" [c1ConfA, c1ConfB]).map
        (fun p => p.mergeNodes.map (fun n => (n.inputs, n.schema))) =
      some [([c1ConfA], [⟨"x", "Int32", true⟩]),
            ([c1ConfB], [⟨"x", "Int32", true⟩])] ∧
    specGroupWidenedSchema c1Merged [c1ConfA] = [⟨"x", "Int32", false⟩] := by
  refine ⟨rfl, rfl, rfl⟩

/-- C1 amended: the nullability widening in `create_physical_plan` is computed
once, globally: in every merge node of the plan, field `i` of the schema keeps
the merged-schema field's name and type and is nullable exactly when it is
nullable in the base (projected merged) schema OR nullable in at least one
fragment of ANY group of the whole scan; in particular nullability is never
narrowed below the base schema. -/
theorem create_physical_plan_global_widening
    (targetFields mergedFields : List ArrowField) (cdc : String)
    (confs : List FlatConfig) (p : ScanPlan) (node : MergeNode)
    (i : Nat) (f : ArrowField)
    (hp : create_physical_plan targetFields mergedFields cdc confs = some p)
    (hn : node ∈ p.mergeNodes) (hf : mergedFields[i]? = some f) :
    node.schema[i]? =
      some ⟨f.name, f.dataType, f.nullable || columnNullable confs f.name⟩ := by
  obtain ⟨h1, _, _, _⟩ :=
    create_physical_plan_some targetFields mergedFields cdc confs p hp
  rw [h1] at hn
  simp only [List.mem_map] at hn
  obtain ⟨g, _, rfl⟩ := hn
  simp [widenMergedSchema, List.getElem?_map, hf]

/-- C1 amended witness: concretely, group `d=A`'s node carries `x` as nullable
because some fragment of the other group is nullable. -/
theorem create_physical_plan_global_widening_witness :
    (⟨[⟨"x", "Int32", true⟩], [c1ConfA], [("d", "A")]⟩ : MergeNode).schema[0]?
      = some ⟨"x", "Int32", false || columnNullable [c1ConfA, c1ConfB] "x"⟩ :=
  create_physical_plan_global_widening c1Merged c1Merged "" [c1ConfA, c1ConfB]
    { mergeNodes := [⟨[⟨"x", "Int32", true⟩], [c1ConfA], [("d", "A")]⟩,
        ⟨[⟨"x", "Int32", true⟩], [c1ConfB], [("d", "B")]⟩]
      isUnion := true
      cdcFilter := none
      trailingProjection := none }
    ⟨[⟨"x", "Int32", true⟩], [c1ConfA], [("d", "A")]⟩ 0 ⟨"x", "Int32", false⟩
    rfl (by decide) rfl

/-- C5: when a CDC column is configured (non-empty name) the plan built by
`create_physical_plan` carries the filter `cdc_column != "delete"`, and the
filter stage removes exactly the rows whose CDC column value is the delete
marker: no surviving row has the marker, every union-stage row with a
different value survives, and nothing else is produced; with no CDC column
configured, no filter is applied and the stream passes through unchanged.
(Rows are modelled with present, non-null column values.) -/
theorem create_physical_plan_cdc_filter
    (targetFields mergedFields : List ArrowField) (cdc : String)
    (confs : List FlatConfig) (p : ScanPlan)
    (groupRows : List FlatConfig → List Row)
    (hp : create_physical_plan targetFields mergedFields cdc confs = some p) :
    (cdc ≠ "" →
      p.cdcFilter = some (cdc, "delete") ∧
      (∀ r ∈ cdcStageRows groupRows p, lookupCol r cdc ≠ some "delete") ∧
      (∀ r ∈ unionStageRows groupRows p, lookupCol r cdc ≠ some "delete" →
        r ∈ cdcStageRows groupRows p) ∧
      (∀ r ∈ cdcStageRows groupRows p, r ∈ unionStageRows groupRows p)) ∧
    (cdc = "" →
      p.cdcFilter = none ∧
      cdcStageRows groupRows p = unionStageRows groupRows p) := by
  obtain ⟨_, _, h3, _⟩ :=
    create_physical_plan_some targetFields mergedFields cdc confs p hp
  constructor
  · intro hne
    rw [if_pos hne] at h3
    have hstage : cdcStageRows groupRows p =
        (unionStageRows groupRows p).filter fun r =>
          !((lookupCol r cdc).any (fun v => v == "delete")) := by
      unfold cdcStageRows
      rw [h3]
    refine ⟨h3, ?_, ?_, ?_⟩
    · intro r hr hdel
      rw [hstage] at hr
      have := (List.mem_filter.mp hr).2
      rw [hdel] at this
      simp at this
    · intro r hr hdel
      rw [hstage]
      refine List.mem_filter.mpr ⟨hr, ?_⟩
      cases hv : lookupCol r cdc with
      | none => simp [hv]
      | some v =>
          rw [hv] at hdel
          simp only [Option.any_some, Bool.not_eq_true']
          exact beq_false_of_ne fun h => hdel (by rw [h])
    · intro r hr
      rw [hstage] at hr
      exact (List.mem_filter.mp hr).1
  · intro heq
    rw [if_neg (by simp [heq])] at h3
    refine ⟨h3, ?_⟩
    unfold cdcStageRows
    rw [h3]

/-- Concrete one-group scan data for exercising the CDC filter theorem. -/
def c5Conf : FlatConfig := ⟨"", [], [⟨"op", "Utf8", false⟩]⟩

def c5Plan : ScanPlan :=
  ⟨[⟨[⟨"op", "Utf8", false⟩], [c5Conf], []⟩], false, some ("op", "delete"), none⟩

def c5Rows : List FlatConfig → List Row :=
  fun _ => [[("op", "insert")], [("op", "delete")]]

/-- C5 witness: a one-group plan over a table whose CDC column is `op`; the
delete-marked row is dropped by the filter stage and the insert-marked row
survives. -/
theorem create_physical_plan_cdc_filter_witness :
    c5Plan.cdcFilter = some ("op", "delete") ∧
    (∀ r ∈ cdcStageRows c5Rows c5Plan, lookupCol r "op" ≠ some "delete") ∧
    (∀ r ∈ unionStageRows c5Rows c5Plan, lookupCol r "op" ≠ some "delete" →
      r ∈ cdcStageRows c5Rows c5Plan) ∧
    (∀ r ∈ cdcStageRows c5Rows c5Plan, r ∈ unionStageRows c5Rows c5Plan) :=
  (create_physical_plan_cdc_filter [⟨"op", "Utf8", false⟩]
      [⟨"op", "Utf8", false⟩] "op" [c5Conf] c5Plan c5Rows rfl).1
    (by decide)

/-! ## Write path: `pull_and_sink` finalization (metadata_format.rs 519-539) -/

/-- The shared `partitioned_file_path_and_row_count` map: partition descriptor
to (written file paths, cumulative row count). -/
abbrev Accumulator := List (String × (List String × Nat))

/-- The locked read-modify-write on the shared accumulator (lines 525-535):
append the file path and add the row count if the descriptor is present,
insert a fresh entry otherwise. -/
def accInsertOrUpdate (acc : Accumulator) (desc path : String) (rows : Nat) :
    Accumulator :=
  if acc.any (fun e => e.1 == desc) then
    acc.map fun e =>
      if e.1 == desc then (e.1, (e.2.1 ++ [path], e.2.2 + rows)) else e
  else
    acc ++ [(desc, ([path], rows))]

/-- The state of one `MultiPartAsyncWriter` at the end of the batch loop:
`absolute_path()` and `nun_rows()` as read at lines 523-524. -/
structure WriterState where
  absolutePath : String
  numRows : Nat
deriving DecidableEq, Repr

/-- Observable events of the finalization loop of `pull_and_sink`, in program
order: taking/releasing the accumulator mutex, the in-lock map update, and the
`flush_and_close` I/O await. -/
inductive SinkEvent where
  | lockAcquire : SinkEvent
  | accUpdate (desc : String) (path : String) (rows : Nat) : SinkEvent
  | lockRelease : SinkEvent
  | flushClose (desc : String) : SinkEvent
deriving DecidableEq, Repr

/-- The event trace of the loop `for (partition_desc, writer) in
partitioned_writer` (lines 519-539): for each writer, the mutex is locked, the
accumulator is updated with that writer's path and row count, the guard is
dropped at the end of the inner block, and only then is the writer flushed and
closed. -/
def pull_and_sink_finalize (writers : List (String × WriterState)) :
    List SinkEvent :=
  writers.flatMap fun w =>
    [SinkEvent.lockAcquire, SinkEvent.accUpdate w.1 w.2.absolutePath w.2.numRows,
     SinkEvent.lockRelease, SinkEvent.flushClose w.1]

/-- Event `e` matches an accumulator update for descriptor `d`. -/
def isAccUpdateFor (d : String) : SinkEvent → Bool
  | SinkEvent.accUpdate desc _ _ => desc == d
  | _ => false

/-- Event `e` matches the flush/close of descriptor `d`'s writer. -/
def isFlushCloseFor (d : String) : SinkEvent → Bool
  | SinkEvent.flushClose desc => desc == d
  | _ => false

/-- In the trace, descriptor `d`'s accumulator update strictly precedes its
flush/close: neither has happened yet until the update occurs, and the
flush/close occurs afterwards. -/
def updateThenFlush (d : String) : List SinkEvent → Bool
  | [] => false
  | e :: rest =>
    if isFlushCloseFor d e then false
    else if isAccUpdateFor d e then rest.any (isFlushCloseFor d)
    else updateThenFlush d rest

/-- The ordering claimed by the spec sentence "merge into the shared
WriteAccumulator ... after flushing and closing each of its writers": the
flush/close of `d`'s writer strictly precedes `d`'s accumulator update. -/
def flushThenUpdate (d : String) : List SinkEvent → Bool
  | [] => false
  | e :: rest =>
    if isAccUpdateFor d e then false
    else if isFlushCloseFor d e then rest.any (isAccUpdateFor d)
    else flushThenUpdate d rest

/-- Walk the trace tracking the mutex depth: `true` when every `flushClose`
happens with the lock not held and every `accUpdate` happens with the lock
held. -/
def lockDisciplineFrom (depth : Nat) : List SinkEvent → Bool
  | [] => true
  | SinkEvent.lockAcquire :: rest => lockDisciplineFrom (depth + 1) rest
  | SinkEvent.lockRelease :: rest => lockDisciplineFrom (depth - 1) rest
  | SinkEvent.accUpdate _ _ _ :: rest =>
      decide (0 < depth) && lockDisciplineFrom depth rest
  | SinkEvent.flushClose _ :: rest =>
      (depth == 0) && lockDisciplineFrom depth rest

/-- Lock discipline of a whole trace, starting with the mutex free. -/
def lockDiscipline (evs : List SinkEvent) : Bool :=
  lockDisciplineFrom 0 evs

lemma pull_and_sink_finalize_cons (w : String × WriterState)
    (ws : List (String × WriterState)) :
    pull_and_sink_finalize (w :: ws) =
      SinkEvent.lockAcquire ::
      SinkEvent.accUpdate w.1 w.2.absolutePath w.2.numRows ::
      SinkEvent.lockRelease ::
      SinkEvent.flushClose w.1 :: pull_and_sink_finalize ws := rfl

lemma lockDiscipline_finalize (ws : List (String × WriterState)) :
    lockDiscipline (pull_and_sink_finalize ws) = true := by
  induction ws with
  | nil => rfl
  | cons w ws ih =>
      rw [pull_and_sink_finalize_cons]
      simpa [lockDiscipline, lockDisciplineFrom] using ih

lemma countP_accUpdate_not_mem (d : String) (ws : List (String × WriterState))
    (hd : d ∉ ws.map Prod.fst) :
    (pull_and_sink_finalize ws).countP (isAccUpdateFor d) = 0 := by
  induction ws with
  | nil => rfl
  | cons w ws ih =>
      have hne : w.1 ≠ d := by
        intro h
        exact hd (by simp [h])
      rw [pull_and_sink_finalize_cons]
      simp only [List.countP_cons, isAccUpdateFor, isFlushCloseFor]
      rw [ih (fun h => hd (List.mem_cons_of_mem _ h))]
      simp [beq_false_of_ne hne]

/-- Replaying the accumulator updates of a trace against a starting
accumulator state. -/
def applyTrace (acc : Accumulator) : List SinkEvent → Accumulator
  | [] => acc
  | SinkEvent.accUpdate d p r :: rest => applyTrace (accInsertOrUpdate acc d p r) rest
  | SinkEvent.lockAcquire :: rest => applyTrace acc rest
  | SinkEvent.lockRelease :: rest => applyTrace acc rest
  | SinkEvent.flushClose _ :: rest => applyTrace acc rest

lemma applyTrace_finalize (ws : List (String × WriterState)) (acc : Accumulator) :
    applyTrace acc (pull_and_sink_finalize ws) =
      ws.foldl (fun a w => accInsertOrUpdate a w.1 w.2.absolutePath w.2.numRows)
        acc := by
  induction ws generalizing acc with
  | nil => rfl
  | cons w ws ih =>
      rw [pull_and_sink_finalize_cons]
      simpa [applyTrace] using ih (accInsertOrUpdate acc w.1 w.2.absolutePath w.2.numRows)

/-- C2 amended: in the finalization loop of `pull_and_sink`, each distinct
partition descriptor the task wrote to gets exactly one accumulator update
(appending that writer's file path and adding its row count, replaying to the
same fold over the writers), the update is performed while the lock is held
and it happens strictly BEFORE that writer's flush/close, and the lock is
never held across the flush/close I/O await. -/
theorem pull_and_sink_accumulator_discipline
    (ws : List (String × WriterState)) (acc : Accumulator) (d : String)
    (hnd : (ws.map Prod.fst).Nodup) (hd : d ∈ ws.map Prod.fst) :
    (pull_and_sink_finalize ws).countP (isAccUpdateFor d) = 1 ∧
    updateThenFlush d (pull_and_sink_finalize ws) = true ∧
    lockDiscipline (pull_and_sink_finalize ws) = true ∧
    applyTrace acc (pull_and_sink_finalize ws) =
      ws.foldl (fun a w => accInsertOrUpdate a w.1 w.2.absolutePath w.2.numRows)
        acc := by
  refine ⟨?_, ?_, lockDiscipline_finalize ws, applyTrace_finalize ws acc⟩
  · induction ws with
    | nil => simp at hd
    | cons w ws ih =>
        rw [pull_and_sink_finalize_cons]
        simp only [List.map_cons, List.nodup_cons] at hnd
        simp only [List.map_cons, List.mem_cons] at hd
        rcases hd with hd | hd
        · have hbeq : (w.1 == d) = true := beq_iff_eq.mpr hd.symm
          simp only [List.countP_cons, isAccUpdateFor, isFlushCloseFor, hbeq]
          rw [countP_accUpdate_not_mem d ws (by rw [hd]; exact hnd.1)]
          simp
        · have hne : (w.1 == d) = false :=
            beq_false_of_ne (fun h => hnd.1 (h ▸ hd))
          simp only [List.countP_cons, isAccUpdateFor, isFlushCloseFor, hne]
          rw [ih hnd.2 hd]
          simp
  · induction ws with
    | nil => simp at hd
    | cons w ws ih =>
        rw [pull_and_sink_finalize_cons]
        simp only [List.map_cons, List.nodup_cons] at hnd
        simp only [List.map_cons, List.mem_cons] at hd
        rcases hd with hd | hd
        · have hbeq : (w.1 == d) = true := beq_iff_eq.mpr hd.symm
          simp [updateThenFlush, isAccUpdateFor, isFlushCloseFor, hbeq]
        · have hne : (w.1 == d) = false :=
            beq_false_of_ne (fun h => hnd.1 (h ▸ hd))
          simp only [updateThenFlush, isAccUpdateFor, isFlushCloseFor, hne,
            if_false, Bool.false_eq_true, if_neg]
          exact ih hnd.2 hd

/-- One concrete writer map for exercising the finalization-loop theorems. -/
def c2Writers : List (String × WriterState) := [("date=2024", ⟨"/t/p.parquet", 5⟩)]

/-- C2 witness: one writer for descriptor `date=2024`; its single update is
in-lock, precedes the flush/close, and replays to the expected accumulator. -/
theorem pull_and_sink_accumulator_discipline_witness :
    (pull_and_sink_finalize c2Writers).countP
        (isAccUpdateFor "date=2024") = 1 ∧
    updateThenFlush "date=2024" (pull_and_sink_finalize c2Writers) = true ∧
    lockDiscipline (pull_and_sink_finalize c2Writers) = true ∧
    applyTrace [] (pull_and_sink_finalize c2Writers) =
      c2Writers.foldl
        (fun a w => accInsertOrUpdate a w.1 w.2.absolutePath w.2.numRows) [] :=
  pull_and_sink_accumulator_discipline c2Writers [] "date=2024"
    (by decide) (by decide)

/-- C2 counterexample: already with a single writer, the trace performs the
accumulator update strictly before the writer's flush/close, so the claimed
order (update after flush and close) is false. -/
theorem pull_and_sink_update_after_flush_counterexample :
    updateThenFlush "date=2024" (pull_and_sink_finalize c2Writers) = true ∧
    flushThenUpdate "date=2024" (pull_and_sink_finalize c2Writers) = false := by
  decide

/-! ## Coordinator: `wait_for_commit` (metadata_format.rs 544-574) -/

/-- The result of awaiting one writer task's join handle: the outer layer is
the join itself (`Err` when the task panicked or was cancelled), the inner
layer is the task's own `Result<u64>`. -/
abbrev TaskJoinResult := Except String (Except String Nat)

/-- One step of the `try_fold` over `join_all`'s results (lines 555-559):
an already-failed fold stays failed, a successful task adds its count, a task
error or join error fails the fold with that error's message. -/
def try_fold_step (counter : Except String Nat) (result : TaskJoinResult) :
    Except String Nat :=
  match counter, result with
  | Except.error e, _ => Except.error e
  | Except.ok c, Except.ok (Except.ok count) => Except.ok (c + count)
  | Except.ok _, Except.ok (Except.error e) => Except.error e
  | Except.ok _, Except.error e => Except.error e

/-- The `try_fold` of lines 552-559: sum the row counts, or stop at the first
entry that is a task error or a join error (results are in task-launch order,
which `join_all` preserves). -/
def try_fold_results (results : List TaskJoinResult) : Except String Nat :=
  results.foldl try_fold_step (Except.ok 0)

/-- The error message of the first failed entry, in list order. -/
def firstFailure (results : List TaskJoinResult) : Option String :=
  results.findSome? fun r =>
    match r with
    | Except.ok (Except.ok _) => none
    | Except.ok (Except.error e) => some e
    | Except.error e => some e

/-- Sum of the row counts of the successful entries. -/
def sumCounts (results : List TaskJoinResult) : Nat :=
  results.foldl
    (fun c r => match r with
      | Except.ok (Except.ok n) => c + n
      | _ => c) 0

/-- The commit loop of `wait_for_commit` (lines 563-572): one `commit_data`
call per accumulator entry with that entry's file list (the row count is not
passed), stopping at the first failing call because of the `?` operator.
Returns the catalog calls actually issued (in order, including a failing one)
and the loop's outcome. `commit` is the external `commit_data` oracle. -/
def commitSequence (commit : String → List String → Except String Unit) :
    Accumulator → List (String × List String) × Except String Unit
  | [] => ([], Except.ok ())
  | (desc, (files, _)) :: rest =>
    match commit desc files with
    | Except.ok _ =>
        let r := commitSequence commit rest
        ((desc, files) :: r.1, r.2)
    | Except.error e => ([(desc, files)], Except.error e)

/-- Model of `LakeSoulHashSinkExec::wait_for_commit` (lines 544-574): await all writer
tasks, fold their results, then commit each accumulator entry. The returned
pair is (catalog calls issued, overall result). -/
def wait_for_commit (commit : String → List String → Except String Unit)
    (results : List TaskJoinResult) (acc : Accumulator) :
    List (String × List String) × Except String Nat :=
  match try_fold_results results with
  | Except.error e => ([], Except.error e)
  | Except.ok count =>
    let r := commitSequence commit acc
    match r.2 with
    | Except.ok _ => (r.1, Except.ok count)
    | Except.error e => (r.1, Except.error e)

lemma try_fold_error_absorb (results : List TaskJoinResult) (e : String) :
    results.foldl try_fold_step (Except.error e) = Except.error e := by
  induction results with
  | nil => rfl
  | cons r rs ih => exact ih

lemma try_fold_from (results : List TaskJoinResult) (c : Nat) :
    results.foldl try_fold_step (Except.ok c) =
      (try_fold_results results).map (c + ·) := by
  induction results generalizing c with
  | nil => simp [try_fold_results, Except.map]
  | cons r rs ih =>
      cases r with
      | ok r2 =>
          cases r2 with
          | ok m =>
              simp only [try_fold_results, List.foldl_cons, try_fold_step]
              rw [ih (c + m), ih (0 + m)]
              cases h : try_fold_results rs with
              | ok k => simp [Except.map, h, Nat.add_assoc, Nat.zero_add]
              | error e => simp [Except.map, h]
          | error e =>
              simp only [try_fold_results, List.foldl_cons, try_fold_step]
              rw [try_fold_error_absorb]
              simp [Except.map]
      | error e =>
          simp only [try_fold_results, List.foldl_cons, try_fold_step]
          rw [try_fold_error_absorb]
          simp [Except.map]

lemma sumCounts_from (results : List TaskJoinResult) (a : Nat) :
    results.foldl
      (fun c r => match r with
        | Except.ok (Except.ok n) => c + n
        | _ => c) a = a + sumCounts results := by
  induction results generalizing a with
  | nil => simp [sumCounts]
  | cons r rs ih =>
      cases r with
      | ok r2 =>
          cases r2 with
          | ok m =>
              simp only [sumCounts, List.foldl_cons]
              rw [ih (a + m), ih (0 + m), Nat.zero_add, Nat.add_assoc]
          | error e =>
              simp only [sumCounts, List.foldl_cons]
              exact ih a
      | error e =>
          simp only [sumCounts, List.foldl_cons]
          exact ih a

lemma try_fold_results_spec (results : List TaskJoinResult) :
    try_fold_results results =
      match firstFailure results with
      | some e => Except.error e
      | none => Except.ok (sumCounts results) := by
  induction results with
  | nil => rfl
  | cons r rs ih =>
      cases r with
      | ok r2 =>
          cases r2 with
          | ok n =>
              have hl : try_fold_results (Except.ok (Except.ok n) :: rs) =
                  (try_fold_results rs).map ((0 + n) + ·) := by
                simp only [try_fold_results, List.foldl_cons, try_fold_step]
                exact try_fold_from rs (0 + n)
              rw [hl, ih]
              have hff : firstFailure (Except.ok (Except.ok n) :: rs) =
                  firstFailure rs := by
                simp [firstFailure]
              rw [hff]
              cases h : firstFailure rs with
              | some e => simp [Except.map]
              | none =>
                  simp only [Except.map]
                  have hs : sumCounts (Except.ok (Except.ok n) :: rs) =
                      (0 + n) + sumCounts rs := by
                    simp only [sumCounts, List.foldl_cons]
                    exact sumCounts_from rs (0 + n)
                  rw [hs]
          | error e =>
              simp only [try_fold_results, List.foldl_cons, try_fold_step]
              rw [try_fold_error_absorb]
              simp [firstFailure]
      | error e =>
          simp only [try_fold_results, List.foldl_cons, try_fold_step]
          rw [try_fold_error_absorb]
          simp [firstFailure]

/-- C3: `wait_for_commit` awaits every writer task (it consumes the full
result list) and: if any task failed (task error or join error), it returns
the first such failure in task-launch order and issues no catalog commit call
at all; catalog calls can only be issued when every task succeeded; and on
overall success the returned count is the sum of all tasks' row counts. -/
theorem wait_for_commit_fails_fast
    (commit : String → List String → Except String Unit)
    (results : List TaskJoinResult) (acc : Accumulator) :
    (∀ e, firstFailure results = some e →
      wait_for_commit commit results acc = ([], Except.error e)) ∧
    (firstFailure results = none →
      (wait_for_commit commit results acc).1 = (commitSequence commit acc).1 ∧
      ((commitSequence commit acc).2 = Except.ok () →
        wait_for_commit commit results acc =
          ((commitSequence commit acc).1, Except.ok (sumCounts results)))) ∧
    ((wait_for_commit commit results acc).1 ≠ [] →
      firstFailure results = none) := by
  have hspec := try_fold_results_spec results
  refine ⟨?_, ?_, ?_⟩
  · intro e he
    rw [he] at hspec
    simp [wait_for_commit, hspec]
  · intro hn
    rw [hn] at hspec
    constructor
    · cases hcs : (commitSequence commit acc).2 with
      | ok u => simp [wait_for_commit, hspec, hcs]
      | error e => simp [wait_for_commit, hspec, hcs]
    · intro hok
      simp [wait_for_commit, hspec, hok]
  · intro hne
    cases hff : firstFailure results with
    | none => rfl
    | some e =>
        rw [hff] at hspec
        simp [wait_for_commit, hspec] at hne

/-- Concrete data for the coordinator witnesses. -/
def c3Commit : String → List String → Except String Unit :=
  fun _ _ => Except.ok ()

def c3FailResults : List TaskJoinResult :=
  [Except.ok (Except.ok 3), Except.error "join failed",
   Except.ok (Except.error "writer failed")]

def c3OkResults : List TaskJoinResult :=
  [Except.ok (Except.ok 3), Except.ok (Except.ok 4)]

def c3Acc : Accumulator := [("date=2024", (["/t/p.parquet"], 7))]

/-- C3 witness: with a failed join among three tasks the coordinator returns
that first failure and performs no commit call; with two successful tasks it
commits and returns the summed count. -/
theorem wait_for_commit_fails_fast_witness :
    wait_for_commit c3Commit c3FailResults c3Acc =
      ([], Except.error "join failed") ∧
    wait_for_commit c3Commit c3OkResults c3Acc =
      ((commitSequence c3Commit c3Acc).1, Except.ok (sumCounts c3OkResults)) :=
  ⟨(wait_for_commit_fails_fast c3Commit c3FailResults c3Acc).1
      "join failed" rfl,
   ((wait_for_commit_fails_fast c3Commit c3OkResults c3Acc).2.1 rfl).2 rfl⟩

/-- C7: the commit loop issues exactly one catalog call per accumulator entry
with that entry's file list when every call succeeds; when a call fails, the
loop reports that failure for the whole write, issues no further calls for the
remaining entries, and the calls already issued for earlier entries stay
issued (there is no revert operation); the same holds through
`wait_for_commit` once all writer tasks succeeded. -/
theorem commit_per_descriptor_no_rollback
    (commit : String → List String → Except String Unit)
    (entries : Accumulator) :
    ((∀ e ∈ entries, commit e.1 e.2.1 = Except.ok ()) →
      commitSequence commit entries =
        (entries.map (fun e => (e.1, e.2.1)), Except.ok ())) ∧
    (∀ (pre : Accumulator) (d : String) (files : List String) (n : Nat)
        (post : Accumulator) (msg : String) (results : List TaskJoinResult),
      entries = pre ++ (d, (files, n)) :: post →
      (∀ e ∈ pre, commit e.1 e.2.1 = Except.ok ()) →
      commit d files = Except.error msg →
      commitSequence commit entries =
        (pre.map (fun e => (e.1, e.2.1)) ++ [(d, files)], Except.error msg) ∧
      (firstFailure results = none →
        wait_for_commit commit results entries =
          (pre.map (fun e => (e.1, e.2.1)) ++ [(d, files)],
            Except.error msg))) := by
  constructor
  · intro hok
    induction entries with
    | nil => rfl
    | cons e es ih =>
        obtain ⟨d, files, n⟩ := e
        have h1 : commit d files = Except.ok () := hok _ (List.mem_cons_self _ _)
        simp only [commitSequence, h1]
        rw [ih (fun x hx => hok x (List.mem_cons_of_mem _ hx))]
        simp
  · intro pre d files n post msg results hsplit hpre hfail
    have hcs : commitSequence commit entries =
        (pre.map (fun e => (e.1, e.2.1)) ++ [(d, files)], Except.error msg) := by
      subst hsplit
      induction pre with
      | nil => simp [commitSequence, hfail]
      | cons p ps ih =>
          obtain ⟨d2, files2, n2⟩ := p
          have h1 : commit d2 files2 = Except.ok () :=
            hpre _ (List.mem_cons_self _ _)
          simp only [List.cons_append, commitSequence, h1]
          simp only [List.append_eq]
          rw [ih (fun x hx => hpre x (List.mem_cons_of_mem _ hx))]
          simp
    refine ⟨hcs, ?_⟩
    intro hff
    have hspec := try_fold_results_spec results
    rw [hff] at hspec
    simp [wait_for_commit, hspec, hcs]

/-- Concrete data for the commit-loop witness: the second of three descriptors
fails to commit. -/
def c7Commit : String → List String → Except String Unit :=
  fun d _ => if d == "region=eu" then Except.error "catalog down" else Except.ok ()

def c7Entries : Accumulator :=
  [("region=us", (["/t/us.parquet"], 2)),
   ("region=eu", (["/t/eu.parquet"], 1)),
   ("region=ap", (["/t/ap.parquet"], 4))]

/-- C7 witness: the failing second descriptor stops the loop after its own
call: the first call stays issued, the third is never attempted, and the
write as a whole (also through `wait_for_commit`) reports the failure. -/
theorem commit_per_descriptor_no_rollback_witness :
    commitSequence c7Commit c7Entries =
      ([("region=us", ["/t/us.parquet"]), ("region=eu", ["/t/eu.parquet"])],
        Except.error "catalog down") ∧
    wait_for_commit c7Commit [Except.ok (Except.ok 7)] c7Entries =
      ([("region=us", ["/t/us.parquet"]), ("region=eu", ["/t/eu.parquet"])],
        Except.error "catalog down") :=
  ⟨((commit_per_descriptor_no_rollback c7Commit c7Entries).2
      [("region=us", (["/t/us.parquet"], 2))] "region=eu" ["/t/eu.parquet"] 1
      [("region=ap", (["/t/ap.parquet"], 4))] "catalog down"
      [Except.ok (Except.ok 7)] rfl
      (by intro e he; rw [List.mem_singleton] at he; subst he; rfl) rfl).1,
   ((commit_per_descriptor_no_rollback c7Commit c7Entries).2
      [("region=us", (["/t/us.parquet"], 2))] "region=eu" ["/t/eu.parquet"] 1
      [("region=ap", (["/t/ap.parquet"], 4))] "catalog down"
      [Except.ok (Except.ok 7)] rfl
      (by intro e he; rw [List.mem_singleton] at he; subst he; rfl) rfl).2 rfl⟩

/-! ## Writer plan construction and execution entry
(metadata_format.rs 338-360, 399-426, 682-756) -/

/-- DataFusion `InsertOp`. -/
inductive InsertOp where
  | append : InsertOp
  | overwrite : InsertOp
  | replace : InsertOp
deriving DecidableEq, Repr

/-- The table-info fields used by the write path. -/
structure TableInfoM where
  tablePath : String
  tableName : String
  tableNamespace : String
  partitions : String
deriving DecidableEq, Repr

/-- Modelled from the spec: `parse_table_info_partitions` is not among the
excerpted source files; per the spec the catalog record's partition
specification is an "ordered list of range-partition column names, ordered
list of primary-key column names", here encoded as the two lists separated by
a semicolon, columns separated by commas. -/
def parse_table_info_partitions (partitions : String) :
    List String × List String :=
  match partitions.splitOn ";" with
  | [r, h] =>
      ((if r = "" then [] else r.splitOn ","),
       (if h = "" then [] else h.splitOn ","))
  | _ => ([], [])

/-- The fields of `LakeSoulHashSinkExec` fixed at construction time
(lines 399-426); the sink schema and plan properties are the constants of
`make_sink_schema`. -/
structure HashSinkExec where
  tableInfo : TableInfoM
  rangePartitions : List String
deriving DecidableEq, Repr

/-- Model of `LakeSoulHashSinkExec::new` (lines 401-426): parse the range partitions
out of the table info and build the sink node. -/
def LakeSoulHashSinkExec.new (tableInfo : TableInfoM) :
    Except String HashSinkExec :=
  Except.ok ⟨tableInfo, (parse_table_info_partitions tableInfo.partitions).1⟩

/-- Model of `LakeSoulMetaDataParquetFormat::create_writer_physical_plan`
(lines 338-360): reject `InsertOp::Overwrite` before building anything,
otherwise return the `LakeSoulHashSinkExec` plan. The function only
constructs a plan node: tasks are spawned, files created and catalog calls
made only when the returned plan is executed, so an error here implies no
side effect. -/
def create_writer_physical_plan (insertOp : InsertOp)
    (tableInfo : TableInfoM) : Except String HashSinkExec :=
  if insertOp = InsertOp.overwrite then
    Except.error "Overwrites are not implemented yet for Parquet"
  else
    LakeSoulHashSinkExec.new tableInfo

/-- C4: an overwrite-mode write request is rejected with the
not-implemented error and no sink plan exists to execute (fail fast, no
side effects); every non-overwrite insert operation yields the
`LakeSoulHashSinkExec` plan. -/
theorem create_writer_physical_plan_rejects_overwrite
    (insertOp : InsertOp) (tableInfo : TableInfoM) :
    (insertOp = InsertOp.overwrite →
      create_writer_physical_plan insertOp tableInfo =
        Except.error "Overwrites are not implemented yet for Parquet") ∧
    (insertOp ≠ InsertOp.overwrite →
      create_writer_physical_plan insertOp tableInfo =
        Except.ok ⟨tableInfo,
          (parse_table_info_partitions tableInfo.partitions).1⟩) := by
  constructor
  · intro h
    simp [create_writer_physical_plan, h]
  · intro h
    simp [create_writer_physical_plan, h, LakeSoulHashSinkExec.new]

/-- C4 witness: overwrite on a concrete table is rejected; append on the same
table yields the sink plan. -/
theorem create_writer_physical_plan_rejects_overwrite_witness :
    create_writer_physical_plan InsertOp.overwrite
        ⟨"/t/", "tbl", "default", "date;id"⟩ =
      Except.error "Overwrites are not implemented yet for Parquet" ∧
    create_writer_physical_plan InsertOp.append
        ⟨"/t/", "tbl", "default", "date;id"⟩ =
      Except.ok ⟨⟨"/t/", "tbl", "default", "date;id"⟩,
        (parse_table_info_partitions "date;id").1⟩ :=
  ⟨(create_writer_physical_plan_rejects_overwrite InsertOp.overwrite
      ⟨"/t/", "tbl", "default", "date;id"⟩).1 rfl,
   (create_writer_physical_plan_rejects_overwrite InsertOp.append
      ⟨"/t/", "tbl", "default", "date;id"⟩).2 (by decide)⟩

/-- The observable actions of `LakeSoulHashSinkExec::execute` before it
returns its stream (lines 682-726), in program order: sampling the random
write id, spawning one writer task per input partition, spawning the commit
coordinator task. -/
inductive ExecAction where
  | genWriteId : ExecAction
  | spawnWriter (inputPartition : Nat) : ExecAction
  | spawnCommit : ExecAction
deriving DecidableEq, Repr

/-- Model of `LakeSoulHashSinkExec::execute` up to the construction of its output
stream (lines 682-726): partitions other than 0 are rejected immediately,
before the write id is generated or any task is spawned; partition 0
generates the write id, spawns `num_input_partitions` writer tasks and then
the coordinator task. Returns the actions performed and the outcome. -/
def execute_actions (numInputPartitions : Nat) (partition : Nat) :
    List ExecAction × Except String Unit :=
  if partition ≠ 0 then
    ([], Except.error "FileSinkExec can only be called on partition 0!")
  else
    (ExecAction.genWriteId ::
      ((List.range numInputPartitions).map ExecAction.spawnWriter ++
        [ExecAction.spawnCommit]),
     Except.ok ())

/-- C9: for every partition index other than 0, `execute` returns the
not-implemented error immediately: no write id is generated, no writer task
and no coordinator task is spawned (the action list is empty); partition 0 is
the only executable partition and performs the full action sequence. -/
theorem execute_rejects_nonzero_partition (numInputPartitions p : Nat)
    (hp : p ≠ 0) :
    execute_actions numInputPartitions p =
      ([], Except.error "FileSinkExec can only be called on partition 0!") := by
  simp [execute_actions, hp]

/-- C9 witness: partition 1 of a sink with 4 input partitions is rejected
with no actions. -/
theorem execute_rejects_nonzero_partition_witness :
    execute_actions 4 1 =
      ([], Except.error "FileSinkExec can only be called on partition 0!") :=
  execute_rejects_nonzero_partition 4 1 (by decide)

/-! ## Sink output stream (metadata_format.rs 740-775) -/

/-- The value `u64::MAX`, the reserved failure sentinel of the sink's count column. -/
def U64_MAX : Nat := 2 ^ 64 - 1

/-- The record batch built by `make_sink_batch` (lines 759-767): two
non-nullable columns, a one-element `UInt64` count column and a one-element
`Utf8` message column. -/
structure SinkBatch where
  fields : List ArrowField
  countColumn : List Nat
  msgColumn : List String
deriving DecidableEq, Repr

/-- Model of `make_sink_batch` (lines 759-767). -/
def make_sink_batch (count : Nat) (msg : String) : SinkBatch :=
  ⟨[⟨"count", "UInt64", false⟩, ⟨"msg", "Utf8", false⟩], [count], [msg]⟩

/-- Model of `make_sink_schema` (lines 769-775). -/
def make_sink_schema : List ArrowField :=
  [⟨"count", "UInt64", false⟩, ⟨"msg", "Utf8", false⟩]

/-- The stream returned by `LakeSoulHashSinkExec::execute` on partition 0
(lines 740-753): `futures::stream::once` over the awaited coordinator join
handle. The outer `Except` is the join of the coordinator task, the inner one
is `wait_for_commit`'s result; every arm wraps the batch in `Ok`, so the
stream protocol itself never carries the failure. -/
def sink_stream (joinResult : Except String (Except String Nat)) :
    List (Except String SinkBatch) :=
  [Except.ok (match joinResult with
    | Except.ok (Except.ok count) => make_sink_batch count ""
    | Except.ok (Except.error e) => make_sink_batch U64_MAX e
    | Except.error e => make_sink_batch U64_MAX e)]

/-- C6: the sink's output stream emits exactly one item; that item is always
`Ok` and holds a batch with schema (count `UInt64` non-nullable, msg `Utf8`
non-nullable) and one row; on success the count is the coordinator's total
row count (the sum of the tasks' counts when commit succeeds) and the message
is empty; on a task or commit failure the count is the sentinel `u64::MAX`
and the message is the error text. -/
theorem sink_stream_single_batch (jr : Except String (Except String Nat)) :
    (sink_stream jr).length = 1 ∧
    (∀ x ∈ sink_stream jr, ∃ b, x = Except.ok b ∧
      b.fields = make_sink_schema ∧
      b.countColumn.length = 1 ∧ b.msgColumn.length = 1) ∧
    (∀ c, jr = Except.ok (Except.ok c) →
      sink_stream jr = [Except.ok (make_sink_batch c "")] ∧
      (make_sink_batch c "").countColumn = [c] ∧
      (make_sink_batch c "").msgColumn = [""]) ∧
    (∀ e, jr = Except.ok (Except.error e) →
      sink_stream jr = [Except.ok (make_sink_batch U64_MAX e)] ∧
      (make_sink_batch U64_MAX e).countColumn = [U64_MAX] ∧
      (make_sink_batch U64_MAX e).msgColumn = [e]) ∧
    (∀ e, jr = Except.error e →
      sink_stream jr = [Except.ok (make_sink_batch U64_MAX e)]) ∧
    (∀ (commit : String → List String → Except String Unit)
        (results : List TaskJoinResult) (acc : Accumulator),
      firstFailure results = none →
      (commitSequence commit acc).2 = Except.ok () →
      sink_stream (Except.ok (wait_for_commit commit results acc).2) =
        [Except.ok (make_sink_batch (sumCounts results) "")]) := by
  refine ⟨rfl, ?_, ?_, ?_, ?_, ?_⟩
  · intro x hx
    simp only [sink_stream, List.mem_singleton] at hx
    subst hx
    cases jr with
    | ok jr2 =>
        cases jr2 with
        | ok c => exact ⟨make_sink_batch c "", rfl, rfl, rfl, rfl⟩
        | error e => exact ⟨make_sink_batch U64_MAX e, rfl, rfl, rfl, rfl⟩
    | error e => exact ⟨make_sink_batch U64_MAX e, rfl, rfl, rfl, rfl⟩
  · intro c hc
    subst hc
    exact ⟨rfl, rfl, rfl⟩
  · intro e he
    subst he
    exact ⟨rfl, rfl, rfl⟩
  · intro e he
    subst he
    rfl
  · intro commit results acc hff hcs
    have hspec := try_fold_results_spec results
    rw [hff] at hspec
    simp [wait_for_commit, sink_stream, hspec, hcs]

/-- C6 witness: the stream shape at a concrete successful coordinator result
(7 rows) and at a concrete commit run. -/
theorem sink_stream_single_batch_witness :
    (sink_stream (Except.ok (Except.ok 7))).length = 1 ∧
    sink_stream (Except.ok (Except.ok 7)) =
      [Except.ok (make_sink_batch 7 "")] ∧
    sink_stream (Except.ok (Except.error "writer failed")) =
      [Except.ok (make_sink_batch U64_MAX "writer failed")] ∧
    sink_stream
        (Except.ok (wait_for_commit c3Commit c3OkResults c3Acc).2) =
      [Except.ok (make_sink_batch (sumCounts c3OkResults) "")] :=
  ⟨(sink_stream_single_batch (Except.ok (Except.ok 7))).1,
   ((sink_stream_single_batch (Except.ok (Except.ok 7))).2.2.1 7 rfl).1,
   ((sink_stream_single_batch
      (Except.ok (Except.error "writer failed"))).2.2.2.1
      "writer failed" rfl).1,
   (sink_stream_single_batch
      (Except.ok (wait_for_commit c3Commit c3OkResults c3Acc).2)).2.2.2.2.2
      c3Commit c3OkResults c3Acc rfl rfl⟩

/-! ## `ProjectionStream` (lakesoul-io/src/projection/mod.rs) -/

/-- An Arrow record batch: schema fields, columns (each a list of cell
values), and the batch's row count. -/
structure RecordBatchM where
  schemaFields : List ArrowField
  columns : List (List String)
  rowCount : Nat
deriving DecidableEq, Repr

/-- Arrow's `RecordBatch::try_new`: requires at least one column, one column
per schema field and equal column lengths; the row count is the first
column's length. -/
def RecordBatchM.try_new (schema : List ArrowField)
    (columns : List (List String)) : Except String RecordBatchM :=
  match columns with
  | [] => Except.error "must either specify a row count or at least one column"
  | c0 :: _ =>
    if columns.length ≠ schema.length then
      Except.error "number of columns must match number of fields"
    else if columns.any (fun c => c.length ≠ c0.length) then
      Except.error "all columns in a record batch must have the same length"
    else Except.ok ⟨schema, columns, c0.length⟩

/-- Arrow's `RecordBatch::try_new_with_options` with
`RecordBatchOptions::new().with_row_count(Some(n))`: the explicit row count
permits zero columns. -/
def RecordBatchM.try_new_with_row_count (schema : List ArrowField)
    (columns : List (List String)) (rowCount : Nat) :
    Except String RecordBatchM :=
  if columns.length ≠ schema.length then
    Except.error "number of columns must match number of fields"
  else if columns.any (fun c => c.length ≠ rowCount) then
    Except.error "all columns in a record batch must have the same length"
  else Except.ok ⟨schema, columns, rowCount⟩

/-- Model of `ProjectionStream` (projection/mod.rs 45-52): output schema, projection
expressions (each `expr.evaluate(batch).and_then(into_array)` modelled as a
function from the batch to a column or an error), and the input stream is
passed separately. -/
structure ProjectionStreamM where
  schema : List ArrowField
  expr : List (RecordBatchM → Except String (List String))

/-- Model of `ProjectionStream::batch_project` (projection/mod.rs 21-41): evaluate all
expressions (collecting the first error); with no expressions build the
output batch through `try_new_with_options` carrying the INPUT batch's row
count, otherwise through `try_new`. -/
def batch_project (ps : ProjectionStreamM) (batch : RecordBatchM) :
    Except String RecordBatchM := do
  let arrays ← ps.expr.mapM fun e => e batch
  if arrays.isEmpty then
    RecordBatchM.try_new_with_row_count ps.schema arrays batch.rowCount
  else
    RecordBatchM.try_new ps.schema arrays

/-- Model of `ProjectionStream::poll_next` (projection/mod.rs 54-65) applied to the
whole input stream: each `Ok` input batch is mapped to `batch_project` of
that batch, errors and stream end pass through untouched. -/
def projection_stream_output (ps : ProjectionStreamM)
    (input : List (Except String RecordBatchM)) :
    List (Except String RecordBatchM) :=
  input.map fun x =>
    match x with
    | Except.ok batch => batch_project ps batch
    | Except.error e => Except.error e

/-- C10: with an empty projection expression list (and the matching empty
output schema), `batch_project` succeeds on every input batch and preserves
the row count while producing zero columns; and the stream adapter maps each
input item to exactly one output item, sending each `Ok` batch through
`batch_project` and passing errors through. -/
theorem batch_project_empty_preserves_row_count (ps : ProjectionStreamM)
    (batch : RecordBatchM) (input : List (Except String RecordBatchM))
    (hexpr : ps.expr = []) (hschema : ps.schema = []) :
    batch_project ps batch = Except.ok ⟨[], [], batch.rowCount⟩ ∧
    (projection_stream_output ps input).length = input.length ∧
    (∀ (i : Nat) (b : RecordBatchM), input[i]? = some (Except.ok b) →
      (projection_stream_output ps input)[i]? = some (batch_project ps b)) ∧
    (∀ (i : Nat) (e : String), input[i]? = some (Except.error e) →
      (projection_stream_output ps input)[i]? = some (Except.error e)) := by
  obtain ⟨schema, expr⟩ := ps
  have hexpr2 : expr = [] := hexpr
  have hschema2 : schema = [] := hschema
  subst hexpr2 hschema2
  refine ⟨?_, ?_, ?_, ?_⟩
  · rfl
  · simp [projection_stream_output]
  · intro i b hi
    simp [projection_stream_output, List.getElem?_map, hi]
  · intro i e hi
    simp [projection_stream_output, List.getElem?_map, hi]

/-- Concrete two-row batch for the projection witness. -/
def c10Batch : RecordBatchM := ⟨[⟨"a", "Utf8", false⟩], [["x", "y"]], 2⟩

/-- C10 witness: an empty projection of a concrete two-row batch keeps two
rows with zero columns, and the stream adapter maps it item by item. -/
theorem batch_project_empty_preserves_row_count_witness :
    batch_project ⟨[], []⟩ c10Batch = Except.ok ⟨[], [], c10Batch.rowCount⟩ ∧
    (projection_stream_output ⟨[], []⟩
        [Except.ok c10Batch, Except.error "boom"]).length = 2 ∧
    (projection_stream_output ⟨[], []⟩
        [Except.ok c10Batch, Except.error "boom"])[1]? =
      some (Except.error "boom") :=
  ⟨(batch_project_empty_preserves_row_count ⟨[], []⟩ c10Batch
      [Except.ok c10Batch, Except.error "boom"] rfl rfl).1,
   (batch_project_empty_preserves_row_count ⟨[], []⟩ c10Batch
      [Except.ok c10Batch, Except.error "boom"] rfl rfl).2.1,
   (batch_project_empty_preserves_row_count ⟨[], []⟩ c10Batch
      [Except.ok c10Batch, Except.error "boom"] rfl rfl).2.2.2 1 "boom" rfl⟩

end LakeSoul
